import Mathlib

/- Verification of the toast state registry (ToastStateManager) and the
Toaster visibility selector of the react-native-sonner library.

The registry is embedded as a pure state-passing model: the manager's
mutable fields become a `ManagerState`, `Date.now()` becomes an explicit
`now : Nat` argument, and each mutation returns its new state together
with the trace of events it published.  Every published event is paired
with the active-toast snapshot a subscriber running at publication time
would read back through `getToasts` / `getToast`.

JavaScript's `Array.prototype.sort` is required (ES2019) to be a stable
sort; for a consistent comparator every stable sort produces the same
output list, so it is embedded exactly by `List.insertionSort`, which is
a stable sort. -/

set_option maxRecDepth 100000

namespace Sonner

/-- Toast identifiers: the TS type is `string | number`.  Generated ids are
strings of the shape `sonner-<count>-<now>`. -/
inductive ToastId where
| str (s : String)
| num (n : Int)
deriving DecidableEq

/-- The `ToastType` union of src/types.ts. -/
inductive ToastType where
| default
| success
| error
| warning
| info
| loading
deriving DecidableEq

/-- A toast duration: a number of milliseconds, or `Number.POSITIVE_INFINITY`
(used by `promise` to disable auto-dismiss of the loading toast). -/
inductive Duration where
| ms (n : Int)
| inf
deriving DecidableEq

/-- The fields of the internal `ToastT` record (src/types.ts) that the state
registry and the visibility selector read or branch on.  Purely
presentational opaque payload (icon, action, cancel, styles, animation,
accessibility, the transient `dismissed` flag) is carried by the real record
but never inspected by the core, and is omitted.  The optional `onDismiss`
callback is tracked by presence (`hasOnDismiss`); its invocations are
recorded in the dismiss output. -/
structure ToastT where
  id : ToastId
  type : ToastType
  title : String
  description : Option String := none
  duration : Option Duration := none
  dismissible : Option Bool := none
  important : Option Bool := none
  toasterId : Option String := none
  createdAt : Nat
  hasOnDismiss : Bool := false
deriving DecidableEq

/-- `ExternalToast`: the options callers pass to `toast()` / `create`
(`Omit<ToastT, "id" | "type" | "title" | "createdAt"> & { id? }`),
restricted to the fields the core reads. -/
structure ExternalToast where
  id : Option ToastId := none
  description : Option String := none
  duration : Option Duration := none
  dismissible : Option Bool := none
  important : Option Bool := none
  toasterId : Option String := none
  hasOnDismiss : Bool := false
deriving DecidableEq

/-- `UpdateToastOptions = Partial<Omit<ToastT, "id" | "createdAt">>`.  A field
that is `none` is absent from the partial record.  `id` and `createdAt` are
excluded by the TS type, but the implementation still guards them at runtime
(`id: toastId`, `createdAt: existingToast.createdAt`), so they are modelled
here to make that guard provable against hostile inputs. -/
structure UpdateToastOptions where
  id : Option ToastId := none
  createdAt : Option Nat := none
  type : Option ToastType := none
  title : Option String := none
  description : Option String := none
  duration : Option Duration := none
  dismissible : Option Bool := none
  important : Option Bool := none
  toasterId : Option String := none
  hasOnDismiss : Option Bool := none
deriving DecidableEq

/-- An event published on one of the three subscriber channels:
`publish` (create), `publishUpdate`, `publishDismiss`. -/
inductive Event where
| create (t : ToastT)
| update (t : ToastT)
| dismiss (id : Option ToastId)
deriving DecidableEq

/-- A published event paired with the active-toast snapshot a subscriber
invoked by it would read back via `getToasts` / `getToast`. -/
structure TracedEvent where
  event : Event
  snapshot : List ToastT
deriving DecidableEq

/-- The dismissed-toast cache, a JS `Map<string | number, number>` from id to
dismissal timestamp: an association list in insertion order with unique keys;
`set` of an existing key updates the value in place, `set` of a new key
appends. -/
abbrev DismissedCache := List (ToastId × Nat)

/-- `Map.prototype.has`. -/
def mapHas (m : DismissedCache) (k : ToastId) : Bool :=
  m.any (fun e => e.1 == k)

/-- `Map.prototype.set`: update in place when the key exists, else append. -/
def mapSet (m : DismissedCache) (k : ToastId) (v : Nat) : DismissedCache :=
  if mapHas m k then m.map (fun e => if e.1 == k then (k, v) else e)
  else m ++ [(k, v)]

/-- `Map.prototype.delete` (keys are unique, so at most one entry matches). -/
def mapDelete (m : DismissedCache) (k : ToastId) : DismissedCache :=
  m.filter (fun e => !(e.1 == k))

/-- `Map.prototype.get`: the value stored under a key, when present. -/
def mapGet? (m : DismissedCache) (k : ToastId) : Option Nat :=
  (m.find? (fun e => e.1 == k)).map (fun e => e.2)

/-- src/constants.ts: `DISMISSED_CACHE_MAX_SIZE = 100`. -/
def DISMISSED_CACHE_MAX_SIZE : Nat := 100

/-- src/constants.ts: `DISMISSED_CACHE_CLEANUP_THRESHOLD = 50`. -/
def DISMISSED_CACHE_CLEANUP_THRESHOLD : Nat := 50

/-- The eviction step of `cleanupDismissedCache`: sort the entries by
timestamp ascending (`(a, b) => a[1] - b[1]`, a stable sort) and delete the
first `DISMISSED_CACHE_CLEANUP_THRESHOLD` of them from the map. -/
def removeOldest (m : DismissedCache) : DismissedCache :=
  let sorted := m.insertionSort (fun a b => a.2 ≤ b.2)
  let toRemove := sorted.take DISMISSED_CACHE_CLEANUP_THRESHOLD
  toRemove.foldl (fun acc e => mapDelete acc e.1) m

/-- `ToastStateManager.cleanupDismissedCache`: a no-op while the size is at
most `DISMISSED_CACHE_MAX_SIZE`, otherwise evict. -/
def cleanupDismissedCache (m : DismissedCache) : DismissedCache :=
  if m.length ≤ DISMISSED_CACHE_MAX_SIZE then m else removeOldest m

/-- `generateId()`: increment the module-level counter modulo
`Number.MAX_SAFE_INTEGER` and build `sonner-<count>-<Date.now()>`.
Returns the id and the new counter. -/
def generateId (count now : Nat) : ToastId × Nat :=
  let c := (count + 1) % 9007199254740991
  (ToastId.str ("sonner-" ++ toString c ++ "-" ++ toString now), c)

/-- The mutable fields of the `ToastStateManager` singleton, plus the
module-level `toastCount` counter that `generateId` uses. -/
structure ManagerState where
  toasts : List ToastT := []
  dismissedToasts : DismissedCache := []
  toastCount : Nat := 0
deriving DecidableEq

/-- The `ToastT` record `create` builds: the options spread first, then `id`,
`type`, `title` and the `createdAt: Date.now()` stamp. -/
def buildToast (o : ExternalToast) (id : ToastId) (type : ToastType)
    (title : String) (now : Nat) : ToastT :=
  { id := id
    type := type
    title := title
    createdAt := now
    description := o.description
    duration := o.duration
    dismissible := o.dismissible
    important := o.important
    toasterId := o.toasterId
    hasOnDismiss := o.hasOnDismiss }

/-- The result of `create`: the returned id, the new state, and the events
published on the way. -/
structure CreateOut where
  id : ToastId
  state : ManagerState
  trace : List TracedEvent
deriving DecidableEq

/-- The id resolution of `create`: `options?.id ?? generateId()` (the
counter advances only when an id is generated). -/
def resolveId (st : ManagerState) (now : Nat)
    (options : Option ExternalToast) : ToastId × Nat :=
  match options.bind (fun o => o.id) with
  | some i => (i, st.toastCount)
  | none => generateId st.toastCount now

/-- `ToastStateManager.create(title, type, options)`.  Resolves the id
(caller-supplied or generated), returns early when the id sits in the
dismissed cache, otherwise builds the record and either replaces the
existing toast with that id (publishing an update event) or appends it
(publishing a create event). -/
def create (st : ManagerState) (now : Nat) (title : String) (type : ToastType)
    (options : Option ExternalToast) : CreateOut :=
  let idCount : ToastId × Nat := resolveId st now options
  let id := idCount.1
  let st1 : ManagerState := { st with toastCount := idCount.2 }
  if mapHas st.dismissedToasts id then
    { id := id, state := st1, trace := [] }
  else
    let o := options.getD {}
    let toast := buildToast o id type title now
    match st.toasts.findIdx? (fun t => t.id == id) with
    | some index =>
      let ts := st.toasts.set index toast
      { id := id
        state := { st1 with toasts := ts }
        trace := [{ event := Event.update toast, snapshot := ts }] }
    | none =>
      let ts := st.toasts ++ [toast]
      { id := id
        state := { st1 with toasts := ts }
        trace := [{ event := Event.create toast, snapshot := ts }] }

/-- The merged record `update` stores: the existing toast spread first, then
the options, then the explicit guards (`id`, `type`, `title`, `createdAt`). -/
def mergeUpdate (ex : ToastT) (toastId : ToastId) (o : UpdateToastOptions) : ToastT :=
  { id := toastId
    type := o.type.getD ex.type
    title := o.title.getD ex.title
    createdAt := ex.createdAt
    description := o.description.orElse (fun _ => ex.description)
    duration := o.duration.orElse (fun _ => ex.duration)
    dismissible := o.dismissible.orElse (fun _ => ex.dismissible)
    important := o.important.orElse (fun _ => ex.important)
    toasterId := o.toasterId.orElse (fun _ => ex.toasterId)
    hasOnDismiss := o.hasOnDismiss.getD ex.hasOnDismiss }

/-- The result of `update`: the returned success flag, the new state, and
the events published. -/
structure UpdateOut where
  ok : Bool
  state : ManagerState
  trace : List TracedEvent
deriving DecidableEq

/-- `ToastStateManager.update(toastId, options)`. -/
def update (st : ManagerState) (toastId : ToastId)
    (options : UpdateToastOptions) : UpdateOut :=
  match st.toasts.findIdx? (fun t => t.id == toastId) with
  | none => { ok := false, state := st, trace := [] }
  | some index =>
    match st.toasts.get? index with
    | none => { ok := false, state := st, trace := [] }
    | some existingToast =>
      let updatedToast := mergeUpdate existingToast toastId options
      let ts := st.toasts.set index updatedToast
      { ok := true
        state := { st with toasts := ts }
        trace := [{ event := Event.update updatedToast, snapshot := ts }] }

/-- The result of `dismiss`: the new state, the published dismiss event, and
the toasts whose `onDismiss` callback was invoked, in invocation order. -/
structure DismissOut where
  state : ManagerState
  trace : List TracedEvent
  callbacks : List ToastT
deriving DecidableEq

/-- `ToastStateManager.dismiss(toastId?)`.  With no id: record every active
toast in the dismissed cache at `now`, invoke its `onDismiss`, clear the
list.  With an id: invoke the toast's `onDismiss` when it is still active,
record the id at `now`, drop the matching entry.  Either way publish exactly
one dismiss event (the state mutations happen first) and then run the cache
cleanup, which touches only the cache. -/
def dismiss (st : ManagerState) (now : Nat) (toastId : Option ToastId) : DismissOut :=
  match toastId with
  | none =>
    let cache := st.toasts.foldl (fun m t => mapSet m t.id now) st.dismissedToasts
    let callbacks := st.toasts.filter (fun t => t.hasOnDismiss)
    let ts : List ToastT := []
    { state := { st with toasts := ts, dismissedToasts := cleanupDismissedCache cache }
      trace := [{ event := Event.dismiss none, snapshot := ts }]
      callbacks := callbacks }
  | some tid =>
    let callbacks :=
      match st.toasts.find? (fun t => t.id == tid) with
      | some t => if t.hasOnDismiss then [t] else []
      | none => []
    let cache := mapSet st.dismissedToasts tid now
    let ts := st.toasts.filter (fun t => !(t.id == tid))
    { state := { st with toasts := ts, dismissedToasts := cleanupDismissedCache cache }
      trace := [{ event := Event.dismiss (some tid), snapshot := ts }]
      callbacks := callbacks }

/-- `ToastStateManager.getToasts()` (the defensive copy is value equality
here). -/
def getToasts (st : ManagerState) : List ToastT :=
  st.toasts

/-- `ToastStateManager.getToast(toastId)`. -/
def getToast (st : ManagerState) (toastId : ToastId) : Option ToastT :=
  st.toasts.find? (fun t => t.id == toastId)

/-- `ToastStateManager.isActive(toastId)`. -/
def isActive (st : ManagerState) (toastId : ToastId) : Bool :=
  st.toasts.any (fun t => t.id == toastId)

/-- `ToastStateManager.clearDismissedHistory()`. -/
def clearDismissedHistory (st : ManagerState) : ManagerState :=
  { st with dismissedToasts := [] }

/-- How the awaited work of `promise` settles. -/
inductive Outcome (T E : Type) where
| ok (v : T)
| err (e : E)

/-- `PromiseData`: the loading title, the success and error titles (each a
static string or a function of the result / the caught error), and whether a
`finally` callback was supplied. -/
structure PromiseData (T E : Type) where
  loading : String
  success : Sum String (T → String)
  error : Sum String (E → String)
  hasFinally : Bool := false

/-- `typeof x === "function" ? x(v) : x`. -/
def resolveMessage {α : Type} : Sum String (α → String) → α → String
| Sum.inl s, _ => s
| Sum.inr f, x => f x

/-- One observable step of a `promise` run: a channel event, or the
invocation of the caller's `finally` callback. -/
inductive PromiseStep where
| evt (e : Event)
| finallyRun
deriving DecidableEq

/-- The result of `promise`: the value returned to the caller (`Except.error`
is the rethrown failure), the final state, and the ordered observable log. -/
structure PromiseOut (T E : Type) where
  result : Except E T
  state : ManagerState
  log : List PromiseStep

/-- The options `promise` passes to `create`: the caller's options spread
first, then `duration: Number.POSITIVE_INFINITY` and `dismissible: false`. -/
def promiseCreateOptions (options : Option ExternalToast) : ExternalToast :=
  { options.getD {} with duration := some Duration.inf, dismissible := some false }

/-- The partial record `promise` passes to `update` on the success path. -/
def promiseSuccessUpdate {T E : Type} (data : PromiseData T E)
    (options : Option ExternalToast) (v : T) : UpdateToastOptions :=
  { type := some ToastType.success
    title := some (resolveMessage data.success v)
    dismissible := some true
    duration := options.bind (fun o => o.duration) }

/-- The partial record `promise` passes to `update` on the failure path. -/
def promiseErrorUpdate {T E : Type} (data : PromiseData T E)
    (options : Option ExternalToast) (e : E) : UpdateToastOptions :=
  { type := some ToastType.error
    title := some (resolveMessage data.error e)
    dismissible := some true
    duration := options.bind (fun o => o.duration) }

/-- The create call `promise` performs for its loading toast. -/
def promiseCreate {T E : Type} (st : ManagerState) (now : Nat)
    (data : PromiseData T E) (options : Option ExternalToast) : CreateOut :=
  create st now data.loading ToastType.loading (some (promiseCreateOptions options))

/-- `ToastStateManager.promise(work, data, options)`, with the awaited
outcome made explicit.  Creates the loading toast (options spread, then
`duration: POSITIVE_INFINITY`, `dismissible: false`), then on either outcome
updates the same id, runs the `finally` callback (the `finally` block runs
before control leaves, on the return path and on the throw path alike), and
returns the result or rethrows the original failure. -/
def promiseRun {T E : Type} (st : ManagerState) (now : Nat)
    (data : PromiseData T E) (options : Option ExternalToast)
    (outcome : Outcome T E) : PromiseOut T E :=
  let c := promiseCreate st now data options
  let finallySteps : List PromiseStep :=
    if data.hasFinally then [PromiseStep.finallyRun] else []
  match outcome with
  | Outcome.ok v =>
    let u := update c.state c.id (promiseSuccessUpdate data options v)
    { result := Except.ok v
      state := u.state
      log := c.trace.map (fun te => PromiseStep.evt te.event)
        ++ u.trace.map (fun te => PromiseStep.evt te.event) ++ finallySteps }
  | Outcome.err e =>
    let u := update c.state c.id (promiseErrorUpdate data options e)
    { result := Except.error e
      state := u.state
      log := c.trace.map (fun te => PromiseStep.evt te.event)
        ++ u.trace.map (fun te => PromiseStep.evt te.event) ++ finallySteps }

/-- The `Position` union of src/types.ts. -/
inductive Position where
| topLeft
| topCenter
| topRight
| bottomLeft
| bottomCenter
| bottomRight
deriving DecidableEq

/-- `position.startsWith("bottom")` over the six position strings. -/
def Position.isBottom : Position → Bool
| Position.bottomLeft => true
| Position.bottomCenter => true
| Position.bottomRight => true
| _ => false

/-- Truthiness of `t.important` (an optional boolean). -/
def isImportant (t : ToastT) : Bool :=
  t.important.getD false

/-- Toaster's `filteredToasts` memo: with a `toasterId`, keep toasts that
target it or target no toaster; without one, keep everything. -/
def filteredToasts (toasts : List ToastT) (toasterId : Option String) : List ToastT :=
  match toasterId with
  | none => toasts
  | some tid => toasts.filter (fun t => t.toasterId == some tid || t.toasterId == none)

/-- Toaster's `sortedToasts` memo: stable-sort by `createdAt` descending
(`(a, b) => b.createdAt - a.createdAt`), then reverse for bottom positions. -/
def sortedToasts (toasts : List ToastT) (position : Position) : List ToastT :=
  let sorted := toasts.insertionSort (fun a b => b.createdAt ≤ a.createdAt)
  if position.isBottom then sorted.reverse else sorted

/-- Toaster's `visibleToastList` memo: with a non-positive limit return the
sorted list whole; otherwise keep every important toast, fill the remaining
slots (`Math.max(0, visibleToasts - important.length)`) with the earliest
regular toasts, and re-sort the union by each toast's index in the
pre-capacity sorted list. -/
def visibleToastList (sortedToasts : List ToastT) (visibleToasts : Int) : List ToastT :=
  if visibleToasts ≤ 0 then sortedToasts
  else
    let important := sortedToasts.filter (fun t => isImportant t)
    let regular := sortedToasts.filter (fun t => !(isImportant t))
    let remainingSlots := (max 0 (visibleToasts - (important.length : Int))).toNat
    let visibleRegular := regular.take remainingSlots
    let combined := important ++ visibleRegular
    combined.insertionSort
      (fun a b => List.indexOf a sortedToasts ≤ List.indexOf b sortedToasts)

/-- The whole visibility pipeline of the Toaster component: filter by
toaster id, sort by recency with the bottom-edge reversal, enforce the
capacity limit. -/
def selectVisible (toasts : List ToastT) (toasterId : Option String)
    (position : Position) (visibleToasts : Int) : List ToastT :=
  visibleToastList (sortedToasts (filteredToasts toasts toasterId) position) visibleToasts

/-- A minimal toast literal for the concrete instances below. -/
def mkToast (i : Int) (c : Nat) : ToastT :=
  { id := ToastId.num i, type := ToastType.default, title := "t", createdAt := c }

/-- A registry with one active toast (id 2) and the id 1 already dismissed. -/
def suppressedState : ManagerState :=
  { toasts := [mkToast 2 0], dismissedToasts := [(ToastId.num 1, 4)], toastCount := 0 }

/-- A registry with a single active toast, id 1, created at time 5. -/
def oneToastState : ManagerState :=
  { toasts := [mkToast 1 5], dismissedToasts := [], toastCount := 0 }

/-- A toast with title "hello" and the registry holding just it. -/
def helloToast : ToastT :=
  { id := ToastId.num 1, type := ToastType.default, title := "hello", createdAt := 5 }

/-- The registry holding just `helloToast`. -/
def helloState : ManagerState :=
  { toasts := [helloToast], dismissedToasts := [], toastCount := 0 }

/-- A registry holding 201 active toasts with distinct ids (as after 201
create calls) and an empty dismissed cache. -/
def manyToastsState : ManagerState :=
  { toasts := (List.range 201).map (fun i => mkToast i 0)
    dismissedToasts := []
    toastCount := 0 }

/-- The registry after dismissing all 201 toasts in one call at time 5: the
dismissed cache then holds 151 entries, every one with timestamp 5. -/
def bulkDismissedState : ManagerState :=
  (dismiss manyToastsState 5 none).state

/-- The empty registry. -/
def emptyState : ManagerState :=
  { toasts := [], dismissedToasts := [], toastCount := 0 }

/-- Concrete promise data: error title given as a function of the error. -/
def promiseDataFx : PromiseData Nat String :=
  { loading := "l", success := Sum.inl "s", error := Sum.inr (fun s => s),
    hasFinally := true }

/-- Concrete promise options carrying an explicit id. -/
def promiseOptionsFx : Option ExternalToast :=
  some { id := some (ToastId.num 9) }

/-- The loading toast the concrete promise run creates at time 3. -/
def loadingToastFx : ToastT :=
  buildToast (promiseCreateOptions promiseOptionsFx) (ToastId.num 9)
    ToastType.loading "l" 3

/-- An important toast for the capacity instances. -/
def impToastFx : ToastT :=
  { id := ToastId.num 2, type := ToastType.default, title := "t",
    createdAt := 20, important := some true }

/-- Three toasts, the middle one important. -/
def mixedToastsFx : List ToastT :=
  [mkToast 1 10, impToastFx, mkToast 3 30]

/-- Five regular toasts with ascending creation times. -/
def fiveToastsFx : List ToastT :=
  [mkToast 1 10, mkToast 2 20, mkToast 3 30, mkToast 4 40, mkToast 5 50]

/- ------------------------------------------------------------------
Helper lemmas about findIdx?, find? and set, shared by the claims. -/

lemma findIdx?_of_isActive_false (st : ManagerState) (tid : ToastId)
    (h : isActive st tid = false) :
    st.toasts.findIdx? (fun t => t.id == tid) = none := by
  rw [List.findIdx?_eq_none_iff]
  intro x hx
  have := List.any_eq_false.mp h x hx
  simpa using this

lemma findIdx?_some_get? {α : Type} (p : α → Bool) :
    ∀ (l : List α) (j : Nat), l.findIdx? p = some j →
      ∃ x, l.get? j = some x ∧ p x = true := by
  intro l
  induction l with
  | nil => intro j h; simp [List.findIdx?] at h
  | cons a t ih =>
    intro j h
    rw [List.findIdx?_cons] at h
    by_cases hp : p a
    · simp only [hp, if_pos] at h
      obtain rfl : (0 : Nat) = j := Option.some.inj h
      exact ⟨a, rfl, hp⟩
    · simp only [hp, if_neg, Bool.false_eq_true, not_false_iff] at h
      rw [show (1 : Nat) = 0 + 1 from rfl, List.findIdx?_succ] at h
      obtain ⟨j', hj', rfl⟩ := Option.map_eq_some'.mp h
      obtain ⟨x, hx, hpx⟩ := ih j' hj'
      exact ⟨x, by simpa using hx, hpx⟩

lemma find?_set_of_findIdx? {α : Type} (p : α → Bool) :
    ∀ (l : List α) (j : Nat) (x : α), l.findIdx? p = some j → p x = true →
      (l.set j x).find? p = some x := by
  intro l
  induction l with
  | nil => intro j x h _; simp [List.findIdx?] at h
  | cons a t ih =>
    intro j x h hx
    rw [List.findIdx?_cons] at h
    by_cases hp : p a
    · simp only [hp, if_pos] at h
      obtain rfl : (0 : Nat) = j := Option.some.inj h
      simp [List.set_cons_zero, List.find?_cons, hx]
    · simp only [hp, if_neg, Bool.false_eq_true, not_false_iff] at h
      rw [show (1 : Nat) = 0 + 1 from rfl, List.findIdx?_succ] at h
      obtain ⟨j', hj', rfl⟩ := Option.map_eq_some'.mp h
      rw [List.set_cons_succ]
      simp only [List.find?_cons]
      have hpa : p a = false := by simpa using hp
      rw [hpa]
      exact ih j' x hj' hx

lemma filter_set_of_findIdx? {α : Type} (p : α → Bool) :
    ∀ (l : List α) (j : Nat) (x : α), l.findIdx? p = some j → p x = true →
      l.countP p ≤ 1 → (l.set j x).filter p = [x] := by
  intro l
  induction l with
  | nil => intro j x h _ _; simp [List.findIdx?] at h
  | cons a t ih =>
    intro j x h hx hc
    rw [List.findIdx?_cons] at h
    by_cases hp : p a
    · simp only [hp, if_pos] at h
      obtain rfl : (0 : Nat) = j := Option.some.inj h
      rw [List.set_cons_zero]
      have hc0 : t.countP p = 0 := by
        rw [List.countP_cons, hp, if_pos rfl] at hc
        omega
      have hf : t.filter p = [] := by
        refine List.length_eq_zero.mp ?_
        rw [← List.countP_eq_length_filter]
        exact hc0
      simp [List.filter_cons, hx, hf]
    · simp only [hp, if_neg, Bool.false_eq_true, not_false_iff] at h
      rw [show (1 : Nat) = 0 + 1 from rfl, List.findIdx?_succ] at h
      obtain ⟨j', hj', rfl⟩ := Option.map_eq_some'.mp h
      rw [List.set_cons_succ]
      have hpa : p a = false := by simpa using hp
      rw [List.countP_cons, hpa] at hc
      simp only [List.filter_cons, hpa]
      exact ih j' x hj' hx (by omega)

lemma find?_some_findIdx? {α : Type} (p : α → Bool) :
    ∀ (l : List α) (x : α), l.find? p = some x →
      ∃ j, l.findIdx? p = some j ∧ l.get? j = some x := by
  intro l
  induction l with
  | nil => intro x h; simp at h
  | cons a t ih =>
    intro x h
    rw [List.find?_cons] at h
    cases hp : p a with
    | true =>
      rw [hp] at h
      obtain rfl : a = x := Option.some.inj h
      exact ⟨0, by simp [List.findIdx?_cons, hp], rfl⟩
    | false =>
      rw [hp] at h
      obtain ⟨j, hj, hg⟩ := ih x h
      refine ⟨j + 1, ?_, by simpa using hg⟩
      rw [List.findIdx?_cons, hp]
      simp only [Bool.false_eq_true, if_neg, not_false_iff]
      rw [show (1 : Nat) = 0 + 1 from rfl, List.findIdx?_succ, hj]
      rfl

/-- What `update` does when the toast is found; shared by several claims. -/
lemma update_found_spec (st : ManagerState) (toastId : ToastId)
    (o : UpdateToastOptions) (T : ToastT) (hT : getToast st toastId = some T) :
    (update st toastId o).ok = true
    ∧ (update st toastId o).trace.map TracedEvent.event
        = [Event.update (mergeUpdate T toastId o)]
    ∧ getToast (update st toastId o).state toastId = some (mergeUpdate T toastId o) := by
  obtain ⟨j, hj, hg⟩ := find?_some_findIdx? _ _ _ hT
  have hpm : ((mergeUpdate T toastId o).id == toastId) = true := by
    simp [mergeUpdate]
  refine ⟨?_, ?_, ?_⟩ <;>
    simp only [update, getToast, hj, hg, List.map_cons, List.map_nil] <;>
    try rfl
  exact find?_set_of_findIdx? _ _ _ _ hj hpm

/- ------------------------------------------------------------------
The claims. -/

/-- C1: for every id present in the dismissed-id cache, `create` called with
that id (any title, kind, options) returns that id, leaves the active toast
list unchanged, and publishes no create or update event. -/
theorem create_suppressed_by_dismissed_cache
    (st : ManagerState) (now : Nat) (title : String) (type : ToastType)
    (options : ExternalToast) (i : ToastId)
    (hid : options.id = some i)
    (hin : mapHas st.dismissedToasts i = true) :
    (create st now title type (some options)).id = i
    ∧ (create st now title type (some options)).state.toasts = st.toasts
    ∧ (create st now title type (some options)).trace = [] := by
  refine ⟨?_, ?_, ?_⟩ <;> simp [create, resolveId, hid, hin]

theorem create_suppressed_by_dismissed_cache_witness :
    ((({ id := some (ToastId.num 1) } : ExternalToast).id = some (ToastId.num 1))
      ∧ mapHas suppressedState.dismissedToasts (ToastId.num 1) = true)
    ∧ ((create suppressedState 9 "x" ToastType.default
          (some { id := some (ToastId.num 1) })).id = ToastId.num 1
      ∧ (create suppressedState 9 "x" ToastType.default
          (some { id := some (ToastId.num 1) })).state.toasts = suppressedState.toasts
      ∧ (create suppressedState 9 "x" ToastType.default
          (some { id := some (ToastId.num 1) })).trace = []) :=
  ⟨⟨rfl, by decide⟩,
    create_suppressed_by_dismissed_cache suppressedState 9 "x" ToastType.default
      { id := some (ToastId.num 1) } (ToastId.num 1) rfl (by decide)⟩

/-- C3: `update` on an unknown id returns false and leaves the whole registry
state unchanged; `update` on an active toast T returns true, publishes exactly
one update event, and afterwards the stored toast under that id is the merged
record, whose id equals T.id and whose createdAt equals T.createdAt, whatever
id or createdAt values the partial fields carry. -/
theorem update_identity_preserved
    (st : ManagerState) (toastId : ToastId) (o : UpdateToastOptions) :
    (isActive st toastId = false →
      (update st toastId o).ok = false
      ∧ (update st toastId o).state = st
      ∧ (update st toastId o).trace = [])
    ∧ (∀ T, getToast st toastId = some T →
      (update st toastId o).ok = true
      ∧ (update st toastId o).trace.map TracedEvent.event
          = [Event.update (mergeUpdate T toastId o)]
      ∧ getToast (update st toastId o).state toastId = some (mergeUpdate T toastId o)
      ∧ (mergeUpdate T toastId o).id = T.id
      ∧ (mergeUpdate T toastId o).createdAt = T.createdAt) := by
  constructor
  · intro h
    have hn := findIdx?_of_isActive_false st toastId h
    refine ⟨?_, ?_, ?_⟩ <;> simp [update, hn]
  · intro T hT
    obtain ⟨hok, htr, hget⟩ := update_found_spec st toastId o T hT
    have hid : T.id = toastId := by
      have := List.find?_some hT
      simpa using this
    exact ⟨hok, htr, hget, by simp [mergeUpdate, hid], rfl⟩

theorem update_identity_preserved_witness :
    (isActive oneToastState (ToastId.num 2) = false
      ∧ (update oneToastState (ToastId.num 2) { title := some "x" }).ok = false)
    ∧ (getToast oneToastState (ToastId.num 1) = some (mkToast 1 5)
      ∧ (update oneToastState (ToastId.num 1)
          { id := some (ToastId.num 9), createdAt := some 777, title := some "x" }).ok = true
      ∧ (mergeUpdate (mkToast 1 5) (ToastId.num 1)
          { id := some (ToastId.num 9), createdAt := some 777, title := some "x" }).createdAt
          = (mkToast 1 5).createdAt) :=
  ⟨⟨by decide,
    ((update_identity_preserved oneToastState (ToastId.num 2)
      { title := some "x" }).1 (by decide)).1⟩,
    ⟨by decide,
      (((update_identity_preserved oneToastState (ToastId.num 1)
          { id := some (ToastId.num 9), createdAt := some 777, title := some "x" }).2
        (mkToast 1 5) (by decide)).1),
      (((update_identity_preserved oneToastState (ToastId.num 1)
          { id := some (ToastId.num 9), createdAt := some 777, title := some "x" }).2
        (mkToast 1 5) (by decide)).2.2.2.2)⟩⟩

/-- C9 counterexample: updating an active toast with an explicitly empty
title stores the empty title; the prior value "hello" is not retained, so
the claim's "empty" case fails on the code. -/
theorem update_empty_title_stored_cex :
    (getToast (update helloState (ToastId.num 1) { title := some "" }).state
      (ToastId.num 1)).map ToastT.title = some ""
    ∧ ("" : String) ≠ "hello" :=
  ⟨rfl, by decide⟩

/-- C9 amended: for every successful update, a kind or title that is absent
(undefined) in the partial fields retains the prior toast's value; an
explicitly passed empty title is stored as given, not replaced by the prior
value. -/
theorem update_absent_kind_title_retained
    (st : ManagerState) (toastId : ToastId) (o : UpdateToastOptions) (T : ToastT)
    (hT : getToast st toastId = some T) :
    (update st toastId o).ok = true
    ∧ getToast (update st toastId o).state toastId = some (mergeUpdate T toastId o)
    ∧ (o.type = none → (mergeUpdate T toastId o).type = T.type)
    ∧ (o.title = none → (mergeUpdate T toastId o).title = T.title) := by
  obtain ⟨hok, _, hget⟩ := update_found_spec st toastId o T hT
  refine ⟨hok, hget, ?_, ?_⟩
  · intro h; simp [mergeUpdate, h]
  · intro h; simp [mergeUpdate, h]

theorem update_absent_kind_title_retained_witness :
    (getToast oneToastState (ToastId.num 1) = some (mkToast 1 5))
    ∧ ((update oneToastState (ToastId.num 1) { description := some "d" }).ok = true
      ∧ (mergeUpdate (mkToast 1 5) (ToastId.num 1)
          { description := some "d" }).type = (mkToast 1 5).type
      ∧ (mergeUpdate (mkToast 1 5) (ToastId.num 1)
          { description := some "d" }).title = (mkToast 1 5).title) :=
  ⟨by decide,
    (update_absent_kind_title_retained oneToastState (ToastId.num 1)
      { description := some "d" } (mkToast 1 5) (by decide)).1,
    (update_absent_kind_title_retained oneToastState (ToastId.num 1)
      { description := some "d" } (mkToast 1 5) (by decide)).2.2.1 rfl,
    (update_absent_kind_title_retained oneToastState (ToastId.num 1)
      { description := some "d" } (mkToast 1 5) (by decide)).2.2.2 rfl⟩

/- Helper lemmas about the Map embedding. -/

lemma mapHas_false_forall (m : DismissedCache) (k : ToastId)
    (h : mapHas m k = false) : ∀ e ∈ m, (e.1 == k) = false := by
  unfold mapHas at h
  intro e he
  have := List.any_eq_false.mp h e he
  simpa using this

lemma mapHas_true_tail (e : ToastId × Nat) (t : DismissedCache) (k : ToastId)
    (h : mapHas (e :: t) k = true) (he : (e.1 == k) = false) :
    mapHas t k = true := by
  unfold mapHas at h ⊢
  obtain ⟨x, hx, hpx⟩ := List.any_eq_true.mp h
  rcases List.mem_cons.mp hx with rfl | hxt
  · rw [he] at hpx
    exact absurd hpx (by simp)
  · exact List.any_eq_true.mpr ⟨x, hxt, hpx⟩

lemma find?_map_replace (k : ToastId) (v : Nat) :
    ∀ (m : DismissedCache), mapHas m k = true →
      (m.map (fun e => if e.1 == k then (k, v) else e)).find?
        (fun e => e.1 == k) = some (k, v) := by
  intro m
  induction m with
  | nil => intro h; simp [mapHas] at h
  | cons e t ih =>
    intro h
    rw [List.map_cons]
    cases he : (e.1 == k) with
    | true =>
      rw [if_pos rfl]
      exact List.find?_cons_of_pos _ (by simp)
    | false =>
      rw [if_neg (by simp), List.find?_cons_of_neg _ (by simp [he])]
      exact ih (mapHas_true_tail e t k h he)

lemma mapGet?_mapSet_self (m : DismissedCache) (k : ToastId) (v : Nat) :
    mapGet? (mapSet m k v) k = some v := by
  unfold mapGet? mapSet
  cases h : mapHas m k with
  | true =>
    rw [if_pos rfl, find?_map_replace k v m h]
    rfl
  | false =>
    rw [if_neg (by simp), List.find?_append]
    have hnone : m.find? (fun e => e.1 == k) = none :=
      List.find?_eq_none.mpr (fun x hx => by simp [mapHas_false_forall m k h x hx])
    rw [hnone]
    simp [List.find?_cons]

lemma mapSet_keys_nodup (m : DismissedCache) (k : ToastId) (v : Nat)
    (h : (m.map Prod.fst).Nodup) : ((mapSet m k v).map Prod.fst).Nodup := by
  unfold mapSet
  cases hk : mapHas m k with
  | true =>
    rw [if_pos rfl]
    have heq : (m.map (fun e => if e.1 == k then (k, v) else e)).map Prod.fst
        = m.map Prod.fst := by
      rw [List.map_map]
      apply List.map_congr_left
      intro e _
      cases he : (e.1 == k) with
      | true =>
        have hek : e.1 = k := by simpa using he
        simp [Function.comp, hek]
      | false =>
        have hne : ¬ e.1 = k := by simpa using he
        simp [Function.comp, hne]
    rw [heq]
    exact h
  | false =>
    rw [if_neg (by simp), List.map_append]
    simp only [List.map_cons, List.map_nil]
    rw [List.nodup_append]
    refine ⟨h, List.nodup_singleton k, ?_⟩
    intro a ha hb
    have hak : a = k := by simpa using hb
    subst hak
    obtain ⟨e, he, hek⟩ := List.mem_map.mp ha
    have := mapHas_false_forall m a hk e he
    rw [hek] at this
    simp at this

lemma mapSet_length_le (m : DismissedCache) (k : ToastId) (v : Nat) :
    (mapSet m k v).length ≤ m.length + 1 := by
  unfold mapSet
  by_cases hk : mapHas m k
  · rw [if_pos hk, List.length_map]
    omega
  · rw [if_neg hk, List.length_append]
    simp

lemma mapDelete_length_of_mem (m : DismissedCache) (e : ToastId × Nat)
    (hkeys : (m.map Prod.fst).Nodup) (he : e ∈ m) :
    (mapDelete m e.1).length + 1 = m.length := by
  have hone : m.countP (fun x => x.1 == e.1) = 1 := by
    have hpos : 0 < m.countP (fun x => x.1 == e.1) :=
      List.countP_pos.mpr ⟨e, he, by simp⟩
    have hle : m.countP (fun x => x.1 == e.1) ≤ 1 := by
      have hcount := List.nodup_iff_count_le_one.mp hkeys e.1
      rw [List.count_eq_countP] at hcount
      calc m.countP (fun x => x.1 == e.1)
          = (m.map Prod.fst).countP (fun a => a == e.1) := by
            rw [List.countP_map]; rfl
        _ ≤ 1 := hcount
    omega
  have hsplit := @List.length_eq_length_filter_add _ m (fun x => x.1 == e.1)
  have hflen : (m.filter (fun x => x.1 == e.1)).length = 1 := by
    rw [← List.countP_eq_length_filter]
    exact hone
  unfold mapDelete
  omega

lemma foldl_mapDelete_length :
    ∀ (rs m : DismissedCache), (m.map Prod.fst).Nodup → (rs.map Prod.fst).Nodup →
      (∀ e ∈ rs, e ∈ m) →
      (rs.foldl (fun acc e => mapDelete acc e.1) m).length + rs.length = m.length := by
  intro rs
  induction rs with
  | nil => intro m _ _ _; simp
  | cons r rs ih =>
    intro m hm hrs hmem
    simp only [List.foldl_cons]
    have h1 : (mapDelete m r.1).length + 1 = m.length :=
      mapDelete_length_of_mem m r hm (hmem r (List.mem_cons.mpr (Or.inl rfl)))
    have h2 : ((mapDelete m r.1).map Prod.fst).Nodup :=
      List.Nodup.sublist (List.Sublist.map Prod.fst (List.filter_sublist m)) hm
    have hrs' : (r.1 :: rs.map Prod.fst).Nodup := by simpa using hrs
    have h3 : (rs.map Prod.fst).Nodup := (List.nodup_cons.mp hrs').2
    have hnotin : r.1 ∉ rs.map Prod.fst := (List.nodup_cons.mp hrs').1
    have h4 : ∀ e ∈ rs, e ∈ mapDelete m r.1 := by
      intro e he
      have hem : e ∈ m := hmem e (List.mem_cons_of_mem r he)
      have hne : (e.1 == r.1) = false := by
        have : e.1 ≠ r.1 := by
          intro hcontra
          exact hnotin (hcontra ▸ List.mem_map.mpr ⟨e, he, rfl⟩)
        simpa using this
      unfold mapDelete
      exact List.mem_filter.mpr ⟨hem, by simp [hne]⟩
    have h5 := ih (mapDelete m r.1) h2 h3 h4
    simp only [List.length_cons]
    omega

lemma cleanup_length_of_overfull (m : DismissedCache)
    (hkeys : (m.map Prod.fst).Nodup) (h : DISMISSED_CACHE_MAX_SIZE < m.length) :
    (cleanupDismissedCache m).length + DISMISSED_CACHE_CLEANUP_THRESHOLD = m.length := by
  unfold cleanupDismissedCache
  rw [if_neg (by omega)]
  unfold removeOldest
  have hperm : (m.insertionSort (fun a b => a.2 ≤ b.2)).Perm m :=
    List.perm_insertionSort _ m
  have hkeys' : ((m.insertionSort (fun a b => a.2 ≤ b.2)).map Prod.fst).Nodup :=
    ((hperm.map Prod.fst).nodup_iff).mpr hkeys
  have htakekeys :
      (((m.insertionSort (fun a b => a.2 ≤ b.2)).take
        DISMISSED_CACHE_CLEANUP_THRESHOLD).map Prod.fst).Nodup :=
    List.Nodup.sublist (List.Sublist.map Prod.fst (List.take_sublist _ _)) hkeys'
  have hmem : ∀ e ∈ (m.insertionSort (fun a b => a.2 ≤ b.2)).take
      DISMISSED_CACHE_CLEANUP_THRESHOLD, e ∈ m :=
    fun e he => hperm.subset (List.take_subset _ _ he)
  have hlen : ((m.insertionSort (fun a b => a.2 ≤ b.2)).take
      DISMISSED_CACHE_CLEANUP_THRESHOLD).length = DISMISSED_CACHE_CLEANUP_THRESHOLD := by
    rw [List.length_take, hperm.length_eq]
    have : DISMISSED_CACHE_CLEANUP_THRESHOLD ≤ m.length := by
      unfold DISMISSED_CACHE_CLEANUP_THRESHOLD
      unfold DISMISSED_CACHE_MAX_SIZE at h
      omega
    omega
  have := foldl_mapDelete_length
    ((m.insertionSort (fun a b => a.2 ≤ b.2)).take DISMISSED_CACHE_CLEANUP_THRESHOLD)
    m hkeys htakekeys hmem
  rw [hlen] at this
  exact this

/-- C2 counterexample: create with an existing active id (prior createdAt 5)
at time 10 replaces the record in place, but the stored createdAt is 10, the
time of the create call; the prior toast's createdAt 5 is not preserved by
the create-as-update path. -/
theorem create_collision_restamps_createdAt_cex :
    (create oneToastState 10 "b" ToastType.default
        (some { id := some (ToastId.num 1) })).state.toasts.map ToastT.createdAt = [10]
    ∧ (mkToast 1 5).createdAt = 5
    ∧ (10 : Nat) ≠ 5 :=
  ⟨rfl, rfl, by decide⟩

/-- C2 amended: a create call whose resolved id is not in the dismissed
cache and matches an active toast leaves exactly one toast with that id in
the active list, holding the newly built record; exactly one update event
(and no create event) is published; and the stored record's createdAt is
the time of the create call — the record is stamped anew rather than
inheriting the prior toast's createdAt. -/
theorem create_collision_update_semantics
    (st : ManagerState) (now : Nat) (title : String) (type : ToastType)
    (options : ExternalToast) (i : ToastId)
    (hid : options.id = some i)
    (hnotin : mapHas st.dismissedToasts i = false)
    (hcount : st.toasts.countP (fun t => t.id == i) ≤ 1)
    (T : ToastT) (hT : getToast st i = some T) :
    (create st now title type (some options)).id = i
    ∧ (create st now title type (some options)).state.toasts.filter
        (fun t => t.id == i) = [buildToast options i type title now]
    ∧ (create st now title type (some options)).trace.map TracedEvent.event
        = [Event.update (buildToast options i type title now)]
    ∧ (buildToast options i type title now).createdAt = now := by
  obtain ⟨j, hj, hg⟩ := find?_some_findIdx? _ _ _ hT
  have hpb : ((buildToast options i type title now).id == i) = true := by
    simp [buildToast]
  have hstep : (create st now title type (some options)).state.toasts
      = st.toasts.set j (buildToast options i type title now)
      ∧ (create st now title type (some options)).trace
        = [{ event := Event.update (buildToast options i type title now),
             snapshot := st.toasts.set j (buildToast options i type title now) }]
      ∧ (create st now title type (some options)).id = i := by
    refine ⟨?_, ?_, ?_⟩ <;> simp [create, resolveId, hid, hnotin, hj]
  obtain ⟨hts, htr, hid'⟩ := hstep
  refine ⟨hid', ?_, ?_, rfl⟩
  · rw [hts]
    exact filter_set_of_findIdx? _ _ _ _ hj hpb hcount
  · rw [htr]
    rfl

theorem create_collision_update_semantics_witness :
    (mapHas oneToastState.dismissedToasts (ToastId.num 1) = false
      ∧ oneToastState.toasts.countP (fun t => t.id == ToastId.num 1) ≤ 1
      ∧ getToast oneToastState (ToastId.num 1) = some (mkToast 1 5))
    ∧ ((create oneToastState 10 "b" ToastType.default
          (some { id := some (ToastId.num 1) })).id = ToastId.num 1
      ∧ (create oneToastState 10 "b" ToastType.default
          (some { id := some (ToastId.num 1) })).state.toasts.filter
            (fun t => t.id == ToastId.num 1)
          = [buildToast { id := some (ToastId.num 1) } (ToastId.num 1)
              ToastType.default "b" 10]) :=
  ⟨⟨by decide, by decide, by decide⟩,
    (create_collision_update_semantics oneToastState 10 "b" ToastType.default
      { id := some (ToastId.num 1) } (ToastId.num 1) rfl (by decide) (by decide)
      (mkToast 1 5) (by decide)).1,
    (create_collision_update_semantics oneToastState 10 "b" ToastType.default
      { id := some (ToastId.num 1) } (ToastId.num 1) rfl (by decide) (by decide)
      (mkToast 1 5) (by decide)).2.1⟩

/-- C7: for each single mutation call (create, update, dismiss), every event
the call publishes carries an active-list snapshot equal to the final
post-mutation list, so a subscriber querying getToasts (or getToast, which
reads the same list) from inside the event observes the mutation already
applied. -/
theorem state_applied_before_publish
    (st : ManagerState) (now : Nat) (title : String) (type : ToastType)
    (options : Option ExternalToast) (toastId : ToastId)
    (o : UpdateToastOptions) (did : Option ToastId) :
    (∀ te ∈ (create st now title type options).trace,
      te.snapshot = getToasts (create st now title type options).state)
    ∧ (∀ te ∈ (update st toastId o).trace,
      te.snapshot = getToasts (update st toastId o).state)
    ∧ (∀ te ∈ (dismiss st now did).trace,
      te.snapshot = getToasts (dismiss st now did).state) := by
  refine ⟨?_, ?_, ?_⟩
  · intro te hte
    revert hte
    simp only [create, getToasts]
    split
    · simp
    · split <;> · intro hte; simp at hte; simp [hte]
  · intro te hte
    revert hte
    simp only [update, getToasts]
    split
    · simp
    · split
      · simp
      · intro hte; simp at hte; simp [hte]
  · intro te hte
    revert hte
    simp only [dismiss, getToasts]
    split <;> · intro hte; simp at hte; simp [hte]

theorem state_applied_before_publish_witness :
    ({ event := Event.create (buildToast { id := some (ToastId.num 7) }
        (ToastId.num 7) ToastType.default "x" 3),
       snapshot := [buildToast { id := some (ToastId.num 7) }
        (ToastId.num 7) ToastType.default "x" 3] } : TracedEvent).snapshot
      = getToasts (create { toasts := [], dismissedToasts := [], toastCount := 0 }
          3 "x" ToastType.default (some { id := some (ToastId.num 7) })).state :=
  (state_applied_before_publish
      { toasts := [], dismissedToasts := [], toastCount := 0 }
      3 "x" ToastType.default (some { id := some (ToastId.num 7) })
      (ToastId.num 0) {} none).1 _ (by decide)

/-- C5 counterexample: the cache reached by dismissing 201 toasts in one
call at time 5 holds 151 entries, all with timestamp 5.  Dismissing id 50 —
which has no active toast — at the same time 5 does insert the id, but the
over-full cache's cleanup evicts the 50 oldest entries and the tied
timestamps leave the just-dismissed id among them, so after the call the id
is NOT recorded in the dismissed cache. -/
theorem dismiss_unknown_id_absorbed_cex :
    isActive bulkDismissedState (ToastId.num 50) = false
    ∧ bulkDismissedState.dismissedToasts.length = 151
    ∧ mapHas (dismiss bulkDismissedState 5 (some (ToastId.num 50))).state.dismissedToasts
        (ToastId.num 50) = false := by
  refine ⟨by decide, by decide, by decide⟩

/-- C5 amended: dismissing an id with no active toast is absorbed without
error: the active list is unchanged, no onDismiss callback runs, exactly one
dismiss event carrying the id is published, and the id is recorded in the
dismissed cache at the current timestamp before cleanup runs; the record is
still present after the call whenever the insertion leaves the cache within
the high-water mark (the cleanup of an over-full cache may evict it, as the
counterexample shows). -/
theorem dismiss_unknown_id_absorbed
    (st : ManagerState) (now : Nat) (tid : ToastId)
    (hno : isActive st tid = false) :
    (dismiss st now (some tid)).state.toasts = st.toasts
    ∧ (dismiss st now (some tid)).callbacks = []
    ∧ (dismiss st now (some tid)).trace.map TracedEvent.event = [Event.dismiss (some tid)]
    ∧ mapGet? (mapSet st.dismissedToasts tid now) tid = some now
    ∧ ((mapSet st.dismissedToasts tid now).length ≤ DISMISSED_CACHE_MAX_SIZE →
        mapGet? (dismiss st now (some tid)).state.dismissedToasts tid = some now) := by
  have hall : ∀ t ∈ st.toasts, (t.id == tid) = false := by
    intro t ht
    have := List.any_eq_false.mp hno t ht
    simpa using this
  refine ⟨?_, ?_, rfl, mapGet?_mapSet_self _ _ _, ?_⟩
  · show st.toasts.filter (fun t => !(t.id == tid)) = st.toasts
    exact List.filter_eq_self.mpr (fun t ht => by simp [hall t ht])
  · show (match st.toasts.find? (fun t => t.id == tid) with
      | some t => if t.hasOnDismiss then [t] else []
      | none => []) = []
    rw [List.find?_eq_none.mpr (fun t ht => by simp [hall t ht])]
  · intro hle
    show mapGet? (cleanupDismissedCache (mapSet st.dismissedToasts tid now)) tid = some now
    rw [cleanupDismissedCache, if_pos hle]
    exact mapGet?_mapSet_self _ _ _

theorem dismiss_unknown_id_absorbed_witness :
    (isActive oneToastState (ToastId.num 3) = false)
    ∧ ((dismiss oneToastState 9 (some (ToastId.num 3))).state.toasts = oneToastState.toasts
      ∧ (dismiss oneToastState 9 (some (ToastId.num 3))).trace.map TracedEvent.event
          = [Event.dismiss (some (ToastId.num 3))]
      ∧ mapGet? (dismiss oneToastState 9 (some (ToastId.num 3))).state.dismissedToasts
          (ToastId.num 3) = some 9) :=
  ⟨by decide,
    (dismiss_unknown_id_absorbed oneToastState 9 (ToastId.num 3) (by decide)).1,
    (dismiss_unknown_id_absorbed oneToastState 9 (ToastId.num 3) (by decide)).2.2.1,
    (dismiss_unknown_id_absorbed oneToastState 9 (ToastId.num 3) (by decide)).2.2.2.2
      (by decide)⟩

/-- C8 counterexample: a single dismiss-all of 201 active toasts over an
empty cache leaves 151 cache entries — the cleanup evicts only a fixed 50,
so after the operation the cache stands above the high-water mark of 100,
refuting "evicted down to a low-water mark / size stays bounded by the
marks after every operation". -/
theorem cache_eviction_cex :
    manyToastsState.dismissedToasts.length = 0
    ∧ (dismiss manyToastsState 5 none).state.dismissedToasts.length = 151
    ∧ DISMISSED_CACHE_MAX_SIZE = 100
    ∧ 100 < 151 :=
  ⟨rfl, by decide, rfl, by decide⟩

/-- C8 amended: the cleanup is triggered once the cache size exceeds the
high-water mark (100) and then evicts exactly the fixed count of 50
oldest-timestamped entries — not an eviction down to a fixed low-water
size.  Consequently a dismiss of a single id starting from a cache within
the 100-entry mark leaves it within the mark, but the size after an
operation is not bounded by the marks in general: a dismiss-all inserting
more than 50 fresh ids leaves the cache above the mark (see the
counterexample), and from the 151-entry cache it reaches, even a single-id
dismiss leaves 102 entries, still above the mark. -/
theorem cache_eviction_fixed_count
    (m : DismissedCache) (st : ManagerState) (now : Nat) (tid : ToastId)
    (hkeys : (m.map Prod.fst).Nodup)
    (hover : DISMISSED_CACHE_MAX_SIZE < m.length)
    (hkeys2 : (st.dismissedToasts.map Prod.fst).Nodup) :
    (cleanupDismissedCache m).length + DISMISSED_CACHE_CLEANUP_THRESHOLD = m.length
    ∧ (st.dismissedToasts.length ≤ DISMISSED_CACHE_MAX_SIZE →
        (dismiss st now (some tid)).state.dismissedToasts.length
          ≤ DISMISSED_CACHE_MAX_SIZE)
    ∧ (dismiss bulkDismissedState 5
        (some (ToastId.num 300))).state.dismissedToasts.length = 102
    ∧ DISMISSED_CACHE_MAX_SIZE < 102 := by
  refine ⟨cleanup_length_of_overfull m hkeys hover, ?_, by decide, by decide⟩
  intro hbound
  show (cleanupDismissedCache (mapSet st.dismissedToasts tid now)).length
    ≤ DISMISSED_CACHE_MAX_SIZE
  have hlen := mapSet_length_le st.dismissedToasts tid now
  by_cases hc : (mapSet st.dismissedToasts tid now).length ≤ DISMISSED_CACHE_MAX_SIZE
  · rw [cleanupDismissedCache, if_pos hc]
    exact hc
  · have hk1 : ((mapSet st.dismissedToasts tid now).map Prod.fst).Nodup :=
      mapSet_keys_nodup _ _ _ hkeys2
    have hover1 : DISMISSED_CACHE_MAX_SIZE < (mapSet st.dismissedToasts tid now).length := by
      omega
    have h50 := cleanup_length_of_overfull _ hk1 hover1
    unfold DISMISSED_CACHE_MAX_SIZE DISMISSED_CACHE_CLEANUP_THRESHOLD at *
    omega

theorem cache_eviction_fixed_count_witness :
    ((((List.range 101).map (fun i => (ToastId.num (Int.ofNat i), i))).map Prod.fst).Nodup
      ∧ DISMISSED_CACHE_MAX_SIZE
          < ((List.range 101).map (fun i => (ToastId.num (Int.ofNat i), i))).length
      ∧ (oneToastState.dismissedToasts.map Prod.fst).Nodup
      ∧ oneToastState.dismissedToasts.length ≤ DISMISSED_CACHE_MAX_SIZE)
    ∧ ((cleanupDismissedCache
          ((List.range 101).map (fun i => (ToastId.num (Int.ofNat i), i)))).length
        + DISMISSED_CACHE_CLEANUP_THRESHOLD
        = ((List.range 101).map (fun i => (ToastId.num (Int.ofNat i), i))).length
      ∧ (dismiss oneToastState 9 (some (ToastId.num 3))).state.dismissedToasts.length
          ≤ DISMISSED_CACHE_MAX_SIZE) :=
  ⟨⟨by decide, by decide, by decide, by decide⟩,
    (cache_eviction_fixed_count
      ((List.range 101).map (fun i => (ToastId.num (Int.ofNat i), i)))
      oneToastState 9 (ToastId.num 3)
      (by decide) (by decide) (by decide)).1,
    (cache_eviction_fixed_count
      ((List.range 101).map (fun i => (ToastId.num (Int.ofNat i), i)))
      oneToastState 9 (ToastId.num 3)
      (by decide) (by decide) (by decide)).2.1 (by decide)⟩

/-- C6: when the awaited work fails, `promise` updates the same loading
toast's id to kind error, with the title resolved by applying the errorText
function to the caught error when a function is given; the finally callback
runs exactly once, in the log position right after that update event; and
the original failure is re-raised to the caller, never swallowed.  On the
success path the finally callback likewise runs exactly once, right after
the success update, before the result is returned. -/
theorem promise_error_success_finally
    {T E : Type} (st : ManagerState) (now : Nat) (data : PromiseData T E)
    (options : Option ExternalToast) (e : E) (v : T) (TL : ToastT)
    (hfin : data.hasFinally = true)
    (hTL : getToast (promiseCreate st now data options).state
        (promiseCreate st now data options).id = some TL) :
    ((promiseRun st now data options (Outcome.err e)).result = Except.error e
      ∧ (promiseRun st now data options (Outcome.err e)).log
          = (promiseCreate st now data options).trace.map
              (fun te => PromiseStep.evt te.event)
            ++ [PromiseStep.evt (Event.update (mergeUpdate TL
                  (promiseCreate st now data options).id
                  (promiseErrorUpdate data options e))),
              PromiseStep.finallyRun]
      ∧ getToast (promiseRun st now data options (Outcome.err e)).state
            (promiseCreate st now data options).id
          = some (mergeUpdate TL (promiseCreate st now data options).id
              (promiseErrorUpdate data options e))
      ∧ (mergeUpdate TL (promiseCreate st now data options).id
          (promiseErrorUpdate data options e)).type = ToastType.error
      ∧ (∀ f, data.error = Sum.inr f →
          (mergeUpdate TL (promiseCreate st now data options).id
            (promiseErrorUpdate data options e)).title = f e))
    ∧ ((promiseRun st now data options (Outcome.ok v)).result = Except.ok v
      ∧ (promiseRun st now data options (Outcome.ok v)).log
          = (promiseCreate st now data options).trace.map
              (fun te => PromiseStep.evt te.event)
            ++ [PromiseStep.evt (Event.update (mergeUpdate TL
                  (promiseCreate st now data options).id
                  (promiseSuccessUpdate data options v))),
              PromiseStep.finallyRun]) := by
  have herr := update_found_spec (promiseCreate st now data options).state
    (promiseCreate st now data options).id (promiseErrorUpdate data options e) TL hTL
  have hsucc := update_found_spec (promiseCreate st now data options).state
    (promiseCreate st now data options).id (promiseSuccessUpdate data options v) TL hTL
  have hmapE : (update (promiseCreate st now data options).state
      (promiseCreate st now data options).id
      (promiseErrorUpdate data options e)).trace.map
        (fun te => PromiseStep.evt te.event)
      = [PromiseStep.evt (Event.update (mergeUpdate TL
          (promiseCreate st now data options).id
          (promiseErrorUpdate data options e)))] := by
    rw [show (fun te => PromiseStep.evt te.event)
        = PromiseStep.evt ∘ TracedEvent.event from rfl, ← List.map_map, herr.2.1]
    rfl
  have hmapS : (update (promiseCreate st now data options).state
      (promiseCreate st now data options).id
      (promiseSuccessUpdate data options v)).trace.map
        (fun te => PromiseStep.evt te.event)
      = [PromiseStep.evt (Event.update (mergeUpdate TL
          (promiseCreate st now data options).id
          (promiseSuccessUpdate data options v)))] := by
    rw [show (fun te => PromiseStep.evt te.event)
        = PromiseStep.evt ∘ TracedEvent.event from rfl, ← List.map_map, hsucc.2.1]
    rfl
  refine ⟨⟨rfl, ?_, herr.2.2, rfl, ?_⟩, rfl, ?_⟩
  · have hlog : (promiseRun st now data options (Outcome.err e)).log
        = (promiseCreate st now data options).trace.map
            (fun te => PromiseStep.evt te.event)
          ++ (update (promiseCreate st now data options).state
              (promiseCreate st now data options).id
              (promiseErrorUpdate data options e)).trace.map
                (fun te => PromiseStep.evt te.event)
          ++ (if data.hasFinally then [PromiseStep.finallyRun] else []) := rfl
    rw [hlog, hmapE, hfin, if_pos rfl]
    simp
  · intro f hf
    simp [mergeUpdate, promiseErrorUpdate, hf, resolveMessage]
  · have hlog : (promiseRun st now data options (Outcome.ok v)).log
        = (promiseCreate st now data options).trace.map
            (fun te => PromiseStep.evt te.event)
          ++ (update (promiseCreate st now data options).state
              (promiseCreate st now data options).id
              (promiseSuccessUpdate data options v)).trace.map
                (fun te => PromiseStep.evt te.event)
          ++ (if data.hasFinally then [PromiseStep.finallyRun] else []) := rfl
    rw [hlog, hmapS, hfin, if_pos rfl]
    simp

theorem promise_error_success_finally_witness :
    (promiseDataFx.hasFinally = true
      ∧ getToast (promiseCreate emptyState 3 promiseDataFx promiseOptionsFx).state
          (promiseCreate emptyState 3 promiseDataFx promiseOptionsFx).id
        = some loadingToastFx)
    ∧ ((promiseRun emptyState 3 promiseDataFx promiseOptionsFx
          (Outcome.err "boom")).result = Except.error "boom"
      ∧ (mergeUpdate loadingToastFx
          (promiseCreate emptyState 3 promiseDataFx promiseOptionsFx).id
          (promiseErrorUpdate promiseDataFx promiseOptionsFx "boom")).title = "boom") :=
  ⟨⟨rfl, by decide⟩,
    (promise_error_success_finally emptyState 3 promiseDataFx promiseOptionsFx
      "boom" 0 loadingToastFx rfl (by decide)).1.1,
    (promise_error_success_finally emptyState 3 promiseDataFx promiseOptionsFx
      "boom" 0 loadingToastFx rfl (by decide)).1.2.2.2.2 (fun s => s) rfl⟩

/- Helper lemmas about indexOf-ordered lists, for the visibility selector. -/

lemma pairwise_indexOf_of_nodup {α : Type} [DecidableEq α] (l : List α)
    (h : l.Nodup) :
    l.Pairwise (fun a b => List.indexOf a l < List.indexOf b l) := by
  rw [List.pairwise_iff_get]
  intro i j hij
  rw [List.get_indexOf h i, List.get_indexOf h j]
  exact_mod_cast hij

lemma sublist_of_pairwise_indexOf {α : Type} [DecidableEq α] :
    ∀ (l xs : List α), (∀ x ∈ xs, x ∈ l) →
      xs.Pairwise (fun a b => List.indexOf a l < List.indexOf b l) →
      xs.Sublist l := by
  intro l
  induction l with
  | nil =>
    intro xs hm _
    cases xs with
    | nil => exact List.Sublist.refl []
    | cons x t =>
      exact absurd (hm x (List.mem_cons.mpr (Or.inl rfl))) (List.not_mem_nil x)
  | cons a l ih =>
    intro xs hm hp
    cases xs with
    | nil => exact List.nil_sublist _
    | cons x xs' =>
      rcases List.pairwise_cons.mp hp with ⟨hhead, htail⟩
      by_cases hxa : x = a
      · subst hxa
        have hne : ∀ y ∈ xs', y ≠ x := by
          intro y hy hcontra
          have hlt := hhead y hy
          subst hcontra
          exact absurd hlt (lt_irrefl _)
        have hymem : ∀ y ∈ xs', y ∈ l := by
          intro y hy
          rcases List.mem_cons.mp (hm y (List.mem_cons.mpr (Or.inr hy))) with h1 | h1
          · exact absurd h1 (hne y hy)
          · exact h1
        have hp' : xs'.Pairwise (fun u v => List.indexOf u l < List.indexOf v l) := by
          refine htail.imp_of_mem ?_
          intro u v hu hv huv
          rw [List.indexOf_cons_ne l (Ne.symm (hne u hu)),
            List.indexOf_cons_ne l (Ne.symm (hne v hv))] at huv
          exact Nat.succ_lt_succ_iff.mp huv
        exact List.Sublist.cons₂ x (ih xs' hymem hp')
      · have hne : ∀ y ∈ x :: xs', y ≠ a := by
          intro y hy hcontra
          subst hcontra
          rcases List.mem_cons.mp hy with h1 | h1
          · exact hxa h1.symm
          · have hlt := hhead y h1
            rw [List.indexOf_cons_self] at hlt
            omega
        have hmem' : ∀ y ∈ x :: xs', y ∈ l := by
          intro y hy
          rcases List.mem_cons.mp (hm y hy) with h1 | h1
          · exact absurd h1 (hne y hy)
          · exact h1
        have hp' : (x :: xs').Pairwise
            (fun u v => List.indexOf u l < List.indexOf v l) := by
          refine hp.imp_of_mem ?_
          intro u v hu hv huv
          rw [List.indexOf_cons_ne l (Ne.symm (hne u hu)),
            List.indexOf_cons_ne l (Ne.symm (hne v hv))] at huv
          exact Nat.succ_lt_succ_iff.mp huv
        exact List.Sublist.cons a (ih (x :: xs') hmem' hp')

lemma insertionSort_indexOf_sublist {α : Type} [DecidableEq α]
    (l xs : List α) (hxs : xs.Nodup) (hmem : ∀ x ∈ xs, x ∈ l) :
    (xs.insertionSort (fun a b => List.indexOf a l ≤ List.indexOf b l)).Sublist l := by
  haveI : IsTotal α (fun a b => List.indexOf a l ≤ List.indexOf b l) :=
    ⟨fun a b => Nat.le_total _ _⟩
  haveI : IsTrans α (fun a b => List.indexOf a l ≤ List.indexOf b l) :=
    ⟨fun a b c hab hbc => Nat.le_trans hab hbc⟩
  have hsorted : (xs.insertionSort
      (fun a b => List.indexOf a l ≤ List.indexOf b l)).Pairwise
        (fun a b => List.indexOf a l ≤ List.indexOf b l) :=
    List.sorted_insertionSort (fun a b => List.indexOf a l ≤ List.indexOf b l) xs
  have hperm := List.perm_insertionSort
    (fun a b => List.indexOf a l ≤ List.indexOf b l) xs
  have hnd : (xs.insertionSort
      (fun a b => List.indexOf a l ≤ List.indexOf b l)).Pairwise (· ≠ ·) :=
    hperm.nodup_iff.mpr hxs
  have hmem' : ∀ x ∈ xs.insertionSort
      (fun a b => List.indexOf a l ≤ List.indexOf b l), x ∈ l :=
    fun x hx => hmem x (hperm.subset hx)
  have hstrict : (xs.insertionSort
      (fun a b => List.indexOf a l ≤ List.indexOf b l)).Pairwise
        (fun a b => List.indexOf a l < List.indexOf b l) := by
    refine (List.Pairwise.and hsorted hnd).imp_of_mem ?_
    intro a b ha hb hab
    refine lt_of_le_of_ne hab.1 (fun heq => hab.2 ?_)
    exact (List.indexOf_inj (hmem' a ha) (hmem' b hb)).mp heq
  exact sublist_of_pairwise_indexOf l _ hmem' hstrict

/-- C4: for a pre-capacity sorted list with unique ids and a capacity limit
that covers the important toasts, the capacity step keeps every important
toast; every kept toast stays in the relative order of the pre-capacity
sorted list (the output is a sublist of it); and a non-positive limit
returns the full sorted list. -/
theorem capacity_keeps_important_and_order (ts : List ToastT) (n : Int)
    (hnd : (ts.map ToastT.id).Nodup) :
    (((ts.filter (fun t => isImportant t)).length : Int) ≤ n →
      ∀ t ∈ ts, isImportant t = true → t ∈ visibleToastList ts n)
    ∧ (visibleToastList ts n).Sublist ts
    ∧ (n ≤ 0 → visibleToastList ts n = ts) := by
  have hts : ts.Nodup := List.Nodup.of_map ToastT.id hnd
  by_cases hn : n ≤ 0
  · have h : visibleToastList ts n = ts := by
      unfold visibleToastList
      rw [if_pos hn]
    refine ⟨fun _ t ht _ => ?_, ?_, fun _ => h⟩
    · rw [h]
      exact ht
    · rw [h]
  · have hv : visibleToastList ts n
        = ((ts.filter (fun t => isImportant t))
            ++ (ts.filter (fun t => !(isImportant t))).take
              ((max 0 (n - ((ts.filter
                (fun t => isImportant t)).length : Int))).toNat)).insertionSort
            (fun a b => List.indexOf a ts ≤ List.indexOf b ts) := by
      unfold visibleToastList
      rw [if_neg hn]
    set combined := (ts.filter (fun t => isImportant t))
        ++ (ts.filter (fun t => !(isImportant t))).take
          ((max 0 (n - ((ts.filter
            (fun t => isImportant t)).length : Int))).toNat) with hcomb
    have hcnd : combined.Nodup := by
      rw [hcomb, List.nodup_append]
      refine ⟨List.Nodup.filter _ hts,
        List.Nodup.sublist (List.take_sublist _ _) (List.Nodup.filter _ hts), ?_⟩
      intro a ha hb
      have h1 := (List.mem_filter.mp ha).2
      have h2 := (List.mem_filter.mp (List.take_subset _ _ hb)).2
      rw [h1] at h2
      simp at h2
    have hcm : ∀ x ∈ combined, x ∈ ts := by
      intro x hx
      rw [hcomb] at hx
      rcases List.mem_append.mp hx with h | h
      · exact (List.mem_filter.mp h).1
      · exact (List.mem_filter.mp (List.take_subset _ _ h)).1
    refine ⟨?_, ?_, fun h0 => absurd h0 hn⟩
    · intro _ t ht himp
      rw [hv]
      refine (List.perm_insertionSort _ _).mem_iff.mpr ?_
      rw [hcomb]
      exact List.mem_append.mpr (Or.inl (List.mem_filter.mpr ⟨ht, himp⟩))
    · rw [hv]
      exact insertionSort_indexOf_sublist ts combined hcnd hcm

theorem capacity_keeps_important_and_order_witness :
    ((mixedToastsFx.map ToastT.id).Nodup
      ∧ ((mixedToastsFx.filter (fun t => isImportant t)).length : Int) ≤ 2)
    ∧ impToastFx ∈ visibleToastList mixedToastsFx 2 :=
  ⟨⟨by decide, by decide⟩,
    (capacity_keeps_important_and_order mixedToastsFx 2 (by decide)).1 (by decide)
      impToastFx (by decide) (by decide)⟩

lemma visibleToastList_no_important (S : List ToastT) (n : Int)
    (hn : ¬ n ≤ 0) (hni : ∀ t ∈ S, isImportant t = false) (hSnd : S.Nodup) :
    visibleToastList S n = S.take n.toNat := by
  have h1 : S.filter (fun t => isImportant t) = [] :=
    List.filter_eq_nil.mpr (fun t ht => by simp [hni t ht])
  have h2 : S.filter (fun t => !(isImportant t)) = S :=
    List.filter_eq_self.mpr (fun t ht => by simp [hni t ht])
  unfold visibleToastList
  rw [if_neg hn]
  show (S.filter (fun t => isImportant t)
      ++ (S.filter (fun t => !(isImportant t))).take
        ((max 0 (n - ((S.filter
          (fun t => isImportant t)).length : Int))).toNat)).insertionSort
      (fun a b => List.indexOf a S ≤ List.indexOf b S) = S.take n.toNat
  rw [h1, h2]
  simp only [List.length_nil, Nat.cast_zero, sub_zero, List.nil_append]
  have hmax : (max 0 n).toNat = n.toNat := by omega
  rw [hmax]
  refine List.Sorted.insertionSort_eq ?_
  have hpw := pairwise_indexOf_of_nodup S hSnd
  exact (List.Pairwise.sublist (List.take_sublist n.toNat S) hpw).imp
    (fun h => Nat.le_of_lt h)

/-- C10: for a bottom-anchored position, a positive capacity n smaller than
the number of active toasts, and no important toasts, the selector returns
exactly n toasts, ordered oldest-first by createdAt, and every selected
toast is strictly older than every toast left out — the n oldest survive,
not the n most recently created. -/
theorem bottom_capacity_selects_oldest (toasts : List ToastT) (pos : Position)
    (n : Int)
    (hpos : pos.isBottom = true)
    (hni : ∀ t ∈ toasts, isImportant t = false)
    (hn : 0 < n)
    (hlen : n < (toasts.length : Int))
    (hnd : (toasts.map ToastT.createdAt).Nodup) :
    (selectVisible toasts none pos n).length = n.toNat
    ∧ (selectVisible toasts none pos n).Pairwise
        (fun a b => a.createdAt < b.createdAt)
    ∧ ∀ u ∈ toasts, u ∉ selectVisible toasts none pos n →
        ∀ t ∈ selectVisible toasts none pos n, t.createdAt < u.createdAt := by
  haveI : IsTotal ToastT (fun a b => b.createdAt ≤ a.createdAt) :=
    ⟨fun a b => Nat.le_total _ _⟩
  haveI : IsTrans ToastT (fun a b => b.createdAt ≤ a.createdAt) :=
    ⟨fun a b c hab hbc => Nat.le_trans hbc hab⟩
  set S := (toasts.insertionSort (fun a b => b.createdAt ≤ a.createdAt)).reverse
    with hS
  have hSsort : sortedToasts (filteredToasts toasts none) pos = S := by
    unfold sortedToasts filteredToasts
    rw [hpos, if_pos rfl]
  have hperm : S.Perm toasts :=
    (List.reverse_perm _).trans (List.perm_insertionSort _ _)
  have hSc : (S.map ToastT.createdAt).Nodup :=
    ((hperm.map ToastT.createdAt).nodup_iff).mpr hnd
  have hSnd : S.Nodup := List.Nodup.of_map ToastT.createdAt hSc
  have hLsorted : List.Sorted (fun a b : ToastT => b.createdAt ≤ a.createdAt)
      (toasts.insertionSort (fun a b => b.createdAt ≤ a.createdAt)) :=
    List.sorted_insertionSort (fun a b : ToastT => b.createdAt ≤ a.createdAt) toasts
  have hSasc : S.Pairwise (fun a b => a.createdAt ≤ b.createdAt) := by
    rw [hS, List.pairwise_reverse]
    exact hLsorted
  have hSstrict : S.Pairwise (fun a b => a.createdAt < b.createdAt) := by
    have hne : S.Pairwise (fun a b => a.createdAt ≠ b.createdAt) :=
      List.pairwise_map.mp hSc
    exact (hSasc.and hne).imp (fun h => lt_of_le_of_ne h.1 h.2)
  have hout : selectVisible toasts none pos n = S.take n.toNat := by
    unfold selectVisible
    rw [hSsort]
    exact visibleToastList_no_important S n (by omega)
      (fun t ht => hni t (hperm.subset ht)) hSnd
  have hlenS : S.length = toasts.length := hperm.length_eq
  have htoNat : n.toNat ≤ S.length := by
    rw [hlenS]
    omega
  refine ⟨?_, ?_, ?_⟩
  · rw [hout, List.length_take]
    omega
  · rw [hout]
    exact List.Pairwise.sublist (List.take_sublist _ _) hSstrict
  · intro u hu hunotin t htin
    rw [hout] at hunotin htin
    have huS : u ∈ S := hperm.mem_iff.mpr hu
    have hsplit := List.take_append_drop n.toNat S
    have hSdecomp : u ∈ S.take n.toNat ++ S.drop n.toNat := by
      rw [hsplit]
      exact huS
    have hud : u ∈ S.drop n.toNat := by
      rcases List.mem_append.mp hSdecomp with h | h
      · exact absurd h hunotin
      · exact h
    have hpw : (S.take n.toNat ++ S.drop n.toNat).Pairwise
        (fun a b => a.createdAt < b.createdAt) := by
      rw [hsplit]
      exact hSstrict
    exact (List.pairwise_append.mp hpw).2.2 t htin u hud

theorem bottom_capacity_selects_oldest_witness :
    (Position.isBottom Position.bottomCenter = true
      ∧ (∀ t ∈ fiveToastsFx, isImportant t = false)
      ∧ (0 : Int) < 3
      ∧ (3 : Int) < (fiveToastsFx.length : Int)
      ∧ (fiveToastsFx.map ToastT.createdAt).Nodup)
    ∧ (selectVisible fiveToastsFx none Position.bottomCenter 3).length
        = (3 : Int).toNat :=
  ⟨⟨rfl, by decide, by decide, by decide, by decide⟩,
    (bottom_capacity_selects_oldest fiveToastsFx Position.bottomCenter 3 rfl
      (by decide) (by decide) (by decide) (by decide)).1⟩

/- The registry invariant behind the uniqueness hypotheses of the claims:
every mutation preserves uniqueness of the active toast ids. -/

lemma set_get?_self {α : Type} :
    ∀ (l : List α) (j : Nat) (v : α), l.get? j = some v → l.set j v = l := by
  intro l
  induction l with
  | nil => intro j v h; simp at h
  | cons a t ih =>
    intro j v h
    cases j with
    | zero =>
      have ha : a = v := by simpa using h
      subst ha
      rw [List.set_cons_zero]
    | succ j =>
      rw [List.set_cons_succ, ih j v (by simpa using h)]

lemma create_ids_nodup (st : ManagerState) (now : Nat) (title : String)
    (type : ToastType) (options : Option ExternalToast)
    (h : (st.toasts.map ToastT.id).Nodup) :
    ((create st now title type options).state.toasts.map ToastT.id).Nodup := by
  simp only [create]
  split
  · exact h
  · split
    next index hj =>
      obtain ⟨x, hx, hpx⟩ := findIdx?_some_get? _ st.toasts index hj
      have hxi : x.id = (resolveId st now options).1 := by simpa using hpx
      show ((st.toasts.set index (buildToast (options.getD {})
        (resolveId st now options).1 type title now)).map ToastT.id).Nodup
      rw [List.map_set]
      have hsame : (st.toasts.map ToastT.id).set index
          (buildToast (options.getD {})
            (resolveId st now options).1 type title now).id
          = st.toasts.map ToastT.id := by
        apply set_get?_self
        rw [List.get?_map, hx]
        simp [buildToast, hxi]
      rw [hsame]
      exact h
    next hj =>
      show (((st.toasts ++ [buildToast (options.getD {})
        (resolveId st now options).1 type title now]).map ToastT.id)).Nodup
      rw [List.map_append]
      simp only [List.map_cons, List.map_nil]
      rw [List.nodup_append]
      refine ⟨h, List.nodup_singleton _, ?_⟩
      intro a ha hb
      have hai : a = (buildToast (options.getD {})
          (resolveId st now options).1 type title now).id := by simpa using hb
      subst hai
      obtain ⟨t, ht, hti⟩ := List.mem_map.mp ha
      have hfalse := List.findIdx?_eq_none_iff.mp hj t ht
      rw [hti] at hfalse
      simp [buildToast] at hfalse

lemma update_ids_nodup (st : ManagerState) (toastId : ToastId)
    (o : UpdateToastOptions)
    (h : (st.toasts.map ToastT.id).Nodup) :
    ((update st toastId o).state.toasts.map ToastT.id).Nodup := by
  simp only [update]
  split
  · exact h
  next index hj =>
    split
    · exact h
    next existingToast hg =>
      have hxi : existingToast.id = toastId := by
        obtain ⟨x, hx, hpx⟩ := findIdx?_some_get? _ st.toasts index hj
        rw [hx] at hg
        obtain rfl : x = existingToast := Option.some.inj hg
        simpa using hpx
      show ((st.toasts.set index
        (mergeUpdate existingToast toastId o)).map ToastT.id).Nodup
      rw [List.map_set]
      have hsame : (st.toasts.map ToastT.id).set index
          (mergeUpdate existingToast toastId o).id = st.toasts.map ToastT.id := by
        apply set_get?_self
        rw [List.get?_map, hg]
        simp [mergeUpdate, hxi]
      rw [hsame]
      exact h

lemma dismiss_ids_nodup (st : ManagerState) (now : Nat) (did : Option ToastId)
    (h : (st.toasts.map ToastT.id).Nodup) :
    ((dismiss st now did).state.toasts.map ToastT.id).Nodup := by
  unfold dismiss
  split
  · simp
  · exact List.Nodup.sublist
      (List.Sublist.map ToastT.id (List.filter_sublist st.toasts)) h

end Sonner
